import Mathlib

/-!
Shallow embedding of the simulation core of the bevy-snake game
(src/main.rs) and verification of its specification.

The embedding models the pure game-logic content of each Bevy system:
queries over components become explicit lists or fields of a `Snake`
structure, timers and scheduling become explicit hypotheses (a tick is
modelled as one invocation of the corresponding step function), and
randomness becomes an explicit sampled-position parameter.
-/

namespace BevySnake

/-- Arena width, `ARENA_WIDTH` in src/main.rs (a `u32` constant; positions
are `i32`, so we carry it as an integer for the bounds comparisons, which
in the source are guarded by `x ≥ 0` before the cast to `u32`). -/
def ARENA_WIDTH : Int := 15

/-- Arena height, `ARENA_HEIGHT` in src/main.rs. -/
def ARENA_HEIGHT : Int := 15

/-- Game states, the `AppState` enum in src/main.rs. -/
inductive AppState where
  | Starting
  | Running
  | Paused
  | Ended
deriving DecidableEq, Repr

/-- Movement directions, the `Direction` enum in src/main.rs. -/
inductive Direction where
  | Up
  | Down
  | Left
  | Right
deriving DecidableEq, Repr

/-- The `Direction::opposite` method in src/main.rs. -/
def Direction.opposite : Direction → Direction
  | .Up => .Down
  | .Down => .Up
  | .Left => .Right
  | .Right => .Left

/-- Grid position, the `Position` component in src/main.rs (`x`, `y` are
`i32`; the game never exceeds i32 range because all positions stay inside
the arena, so plain `Int` is faithful). -/
structure Position where
  x : Int
  y : Int
deriving DecidableEq, Repr

/-- The whole per-snake state: the `SnakeHead` component (`direction`,
`input_direction`), the head's `Position`, the ordered list of
body-segment positions (the `SnakeBody` entity list resolved to the
`Position` of each segment entity, head excluded, ordered head-adjacent
first), and the `LastTailPos` component. -/
structure Snake where
  head_pos : Position
  direction : Direction
  input_direction : Option Direction
  body : List Position
  last_tail_pos : Position
deriving DecidableEq, Repr

/-- Unit displacement applied to the head position: the `match direction`
block at the top of `get_next_head_pos` in src/main.rs. -/
def displace (p : Position) : Direction → Position
  | .Left => { p with x := p.x - 1 }
  | .Right => { p with x := p.x + 1 }
  | .Up => { p with y := p.y + 1 }
  | .Down => { p with y := p.y - 1 }

/-- The `get_next_head_pos` function in src/main.rs. `segments` is the
list of body-segment positions delivered by the
`Query<&mut Position, (With SnakeSegment, Without SnakeHead)>` parameter:
it excludes the head's own position by construction. The source first
applies the unit displacement, then returns `None` when the result is out
of bounds (the `x < 0` / `y < 0` tests precede the `as u32` casts, so the
comparisons are plain integer comparisons), then returns `None` from the
loop on the first segment whose position equals the displaced position,
and otherwise returns the displaced position. -/
def get_next_head_pos (head_pos : Position) (direction : Direction)
    (segments : List Position) : Option Position :=
  if (displace head_pos direction).x < 0 || (displace head_pos direction).y < 0
      || (displace head_pos direction).x ≥ ARENA_WIDTH
      || (displace head_pos direction).y ≥ ARENA_HEIGHT then
    none
  else if segments.any (fun segment_pos => displace head_pos direction = segment_pos) then
    none
  else
    some (displace head_pos direction)

/-- Bounds predicate for positions, `[0, ARENA_WIDTH) x [0, ARENA_HEIGHT)`. -/
def inBounds (p : Position) : Prop :=
  0 ≤ p.x ∧ p.x < ARENA_WIDTH ∧ 0 ≤ p.y ∧ p.y < ARENA_HEIGHT

instance (p : Position) : Decidable (inBounds p) := by
  unfold inBounds; infer_instance

/-- Direction committed at a movement tick: the
`if head.input_direction.is_some() { head.direction = ... }` step at the
top of the per-head loop in `snake_movement` in src/main.rs. -/
def adoptedDir (s : Snake) : Direction :=
  match s.input_direction with
  | some d => d
  | none => s.direction

/-- The in-place body shift loop of `snake_movement` in src/main.rs:
walking the body in order, each segment receives the carried `front_pos`
and hands its old position on; returns the shifted body and the final
carried position (which becomes `LastTailPos`). -/
def shiftBody (front_pos : Position) : List Position → List Position × Position
  | [] => ([], front_pos)
  | p :: rest =>
      let r := shiftBody p rest
      (front_pos :: r.1, r.2)

/-- One firing of the `snake_movement` system in src/main.rs (timer
elapsed, state `Running`): the source first overwrites `head.direction`
with the pending input direction when one exists (so the adopted direction
persists in both branches), then computes the next head position with that
direction; on collision it sets the state to `Ended` and returns without
touching any position, otherwise it shifts the body, records the vacated
tail position and moves the head. The returned `AppState` is `Ended`
exactly when `app_state.set(AppState::Ended)` runs. -/
def snake_movement (s : Snake) : Snake × AppState :=
  match get_next_head_pos s.head_pos (adoptedDir s) s.body with
  | none => ({ s with direction := adoptedDir s }, AppState.Ended)
  | some next_head_pos =>
      let r := shiftBody s.head_pos s.body
      ({ s with direction := adoptedDir s
                head_pos := next_head_pos
                body := r.1
                last_tail_pos := r.2 }, AppState.Running)

/-- The `snake_eating_and_growth` system in src/main.rs, with the food
query resolved to an optional food position (the game keeps at most one
food): when the head position equals the food position the food entity is
despawned and `spawn_segment` appends one segment at `LastTailPos` to the
end of the body; otherwise nothing changes. -/
def snake_eating_and_growth (s : Snake) (food : Option Position) :
    Snake × Option Position :=
  match food with
  | none => (s, none)
  | some food_pos =>
      if s.head_pos = food_pos then
        ({ s with body := s.body ++ [s.last_tail_pos] }, none)
      else
        (s, some food_pos)

/-- Key sampling in `snake_head_movement_input` in src/main.rs: the
if/else chain over the four held-key states. -/
def sampleDir (left right up down : Bool) : Option Direction :=
  if left then some Direction.Left
  else if right then some Direction.Right
  else if up then some Direction.Up
  else if down then some Direction.Down
  else none

/-- The guarded pending-input update at the bottom of
`snake_head_movement_input` in src/main.rs: a sampled direction is stored
as the pending input only when it differs from the opposite of the current
committed direction. -/
def apply_input_dir (s : Snake) (dir : Option Direction) : Snake :=
  match dir with
  | some d =>
      if d ≠ s.direction.opposite then { s with input_direction := some d }
      else s
  | none => s

/-- The `snake_head_movement_input` system in src/main.rs: sample the four
directional key states, then store the result as pending input subject to
the opposite-direction guard. -/
def snake_head_movement_input (left right up down : Bool) (s : Snake) : Snake :=
  apply_input_dir s (sampleDir left right up down)

/-- One attempt of the `food_spawner` system in src/main.rs. `foods` is the
list of current food positions (the `Query<&Position, With Food>`),
`segments` the positions of all `SnakeSegment` entities (head included,
since `spawn_snake` tags the head with `SnakeSegment`), `sampled` the
randomly drawn cell and `timerFinished` the state of the spawn timer. The
source spawns one food at `sampled` only when the timer elapsed, no food
exists, and the `vacant` flag survives the occupancy loop. -/
def food_spawner (timerFinished : Bool) (segments : List Position)
    (foods : List Position) (sampled : Position) : List Position :=
  if timerFinished && foods.isEmpty then
    let vacant := segments.foldl
      (fun vacant segment_pos => if sampled = segment_pos then false else vacant)
      true
    if vacant then foods ++ [sampled] else foods
  else
    foods

/-- The snake produced by `spawn_snake` in src/main.rs: head at (3,3)
facing `Up` with no pending input, one body segment at (3,2), and
`LastTailPos` (3,2). -/
def initialSnake : Snake :=
  { head_pos := { x := 3, y := 3 }
    direction := Direction.Up
    input_direction := none
    body := [{ x := 3, y := 2 }]
    last_tail_pos := { x := 3, y := 2 } }

/-- All cells occupied by the snake: head first, then the body in order. -/
def snakePositions (s : Snake) : List Position :=
  s.head_pos :: s.body

/-- Pairwise distinctness of all snake cells. -/
def snakeDistinct (s : Snake) : Prop :=
  (snakePositions s).Nodup

instance (s : Snake) : Decidable (snakeDistinct s) := by
  unfold snakeDistinct; infer_instance

/-- One movement tick followed by the eating/growth check, as scheduled in
src/main.rs (`snake_eating_and_growth.after(snake_movement)` inside the
`on_update(AppState::Running)` set): when the movement collides the state
becomes `Ended` and the eating check cannot act on a moved head. -/
def moveAndEat (s : Snake) (food : Option Position) :
    Snake × Option Position × AppState :=
  let r := snake_movement s
  match r.2 with
  | AppState.Ended => (r.1, food, AppState.Ended)
  | st =>
      let e := snake_eating_and_growth r.1 food
      (e.1, e.2, st)

end BevySnake

namespace BevySnake

theorem displace_ne (p : Position) (d : Direction) : displace p d ≠ p := by
  cases p with
  | mk x y => cases d <;> simp [displace, Position.mk.injEq]

theorem get_next_head_pos_eq_none_iff (p : Position) (d : Direction)
    (segments : List Position) :
    get_next_head_pos p d segments = none ↔
      (¬ inBounds (displace p d) ∨ displace p d ∈ segments) := by
  unfold get_next_head_pos inBounds
  split
  · rename_i hbad
    simp only [Bool.or_eq_true, decide_eq_true_eq] at hbad
    simp only [true_iff]
    left
    omega
  · rename_i hok
    simp only [Bool.or_eq_true, decide_eq_true_eq, not_or] at hok
    push_neg at hok
    split
    · rename_i hmem
      simp only [List.any_eq_true, decide_eq_true_eq] at hmem
      obtain ⟨q, hq, heq⟩ := hmem
      simp only [true_iff]
      right
      exact heq ▸ hq
    · rename_i hmem
      simp only [List.any_eq_true, decide_eq_true_eq] at hmem
      push_neg at hmem
      constructor
      · intro h; cases h
      · rintro (h | h)
        · exact absurd ⟨by omega, by omega, by omega, by omega⟩ h
        · exact absurd rfl (hmem _ h)

theorem get_next_head_pos_eq_some (p : Position) (d : Direction)
    (segments : List Position) (hin : inBounds (displace p d))
    (hmem : displace p d ∉ segments) :
    get_next_head_pos p d segments = some (displace p d) := by
  rcases h : get_next_head_pos p d segments with _ | q
  · rcases (get_next_head_pos_eq_none_iff p d segments).mp h with h' | h'
    · exact absurd hin h'
    · exact absurd h' hmem
  · unfold get_next_head_pos at h
    split at h
    · cases h
    · split at h
      · cases h
      · simpa using h.symm

theorem get_next_head_pos_some_inv (p : Position) (d : Direction)
    (segments : List Position) (q : Position)
    (h : get_next_head_pos p d segments = some q) :
    q = displace p d ∧ inBounds (displace p d) ∧ displace p d ∉ segments := by
  unfold get_next_head_pos at h
  split at h
  · cases h
  · rename_i hok
    simp only [Bool.or_eq_true, decide_eq_true_eq] at hok
    push_neg at hok
    split at h
    · cases h
    · rename_i hmem
      simp only [List.any_eq_true, decide_eq_true_eq] at hmem
      push_neg at hmem
      refine ⟨by simpa using h.symm, ?_, ?_⟩
      · unfold inBounds
        exact ⟨by omega, by omega, by omega, by omega⟩
      · intro hc
        exact hmem _ hc rfl

/-- C1: for every position strictly inside the arena bounds and every
direction, `get_next_head_pos` with an empty occupied-cell set returns the
unit displacement of the position in that direction (Left decrements x,
Right increments x, Up increments y, Down decrements y). -/
theorem c1_unit_displacement (p : Position) (d : Direction)
    (hx0 : 0 < p.x) (hx1 : p.x < ARENA_WIDTH - 1)
    (hy0 : 0 < p.y) (hy1 : p.y < ARENA_HEIGHT - 1) :
    get_next_head_pos p d [] = some (displace p d) ∧
      displace p .Left = { p with x := p.x - 1 } ∧
      displace p .Right = { p with x := p.x + 1 } ∧
      displace p .Up = { p with y := p.y + 1 } ∧
      displace p .Down = { p with y := p.y - 1 } := by
  refine ⟨?_, rfl, rfl, rfl, rfl⟩
  apply get_next_head_pos_eq_some
  · unfold ARENA_WIDTH ARENA_HEIGHT at *
    cases d <;> simp [displace, inBounds, ARENA_WIDTH, ARENA_HEIGHT] <;> omega
  · simp

theorem c1_unit_displacement_witness :
    get_next_head_pos { x := 3, y := 3 } Direction.Up [] =
      some { x := 3, y := 4 } := by
  have h := c1_unit_displacement { x := 3, y := 3 } Direction.Up
    (by decide) (by decide) (by decide) (by decide)
  simpa [displace] using h.1

end BevySnake

namespace BevySnake

theorem get_next_head_pos_of_mem (p : Position) (d : Direction)
    (segments : List Position) (hmem : displace p d ∈ segments) :
    get_next_head_pos p d segments = none :=
  (get_next_head_pos_eq_none_iff p d segments).mpr (Or.inr hmem)

/-- C2: `get_next_head_pos` returns no position exactly when the displaced
position is out of bounds or coincides with an occupied body-segment cell;
on every in-bounds, unoccupied displaced position it returns that
position; and the head's own current cell can never trigger the occupancy
rejection (adding it to the occupied set changes nothing), which is how
the source realises the head-cell exclusion: the segment query carries
`Without SnakeHead`. -/
theorem c2_collision_characterisation (p : Position) (d : Direction)
    (segments : List Position) :
    (get_next_head_pos p d segments = none ↔
      ¬ inBounds (displace p d) ∨ displace p d ∈ segments) ∧
    (inBounds (displace p d) → displace p d ∉ segments →
      get_next_head_pos p d segments = some (displace p d)) ∧
    get_next_head_pos p d (p :: segments) = get_next_head_pos p d segments := by
  refine ⟨get_next_head_pos_eq_none_iff p d segments,
    get_next_head_pos_eq_some p d segments, ?_⟩
  unfold get_next_head_pos
  split
  · rfl
  · simp [List.any_cons, displace_ne p d]

theorem c2_collision_characterisation_witness :
    get_next_head_pos { x := 3, y := 3 } Direction.Right [{ x := 4, y := 3 }]
        = none ∧
      get_next_head_pos { x := 3, y := 3 } Direction.Right [{ x := 5, y := 3 }]
        = some { x := 4, y := 3 } := by
  constructor
  · exact (c2_collision_characterisation { x := 3, y := 3 } Direction.Right
      [{ x := 4, y := 3 }]).1.mpr (Or.inr (by decide))
  · exact (c2_collision_characterisation { x := 3, y := 3 } Direction.Right
      [{ x := 5, y := 3 }]).2.1 (by decide) (by decide)

theorem shiftBody_eq (l : List Position) (front : Position) :
    shiftBody front l = ((front :: l).dropLast, l.getLastD front) := by
  induction l generalizing front with
  | nil => simp [shiftBody]
  | cons a t ih =>
      simp only [shiftBody, ih, List.dropLast_cons₂]
      rw [List.getLastD_cons]

theorem getLastD_of_ne_nil {α : Type _} (l : List α) (hb : l ≠ []) (d : α) :
    l.getLastD d = l.getLast hb := by
  induction l generalizing d with
  | nil => exact absurd rfl hb
  | cons a t ih =>
      cases t with
      | nil => rfl
      | cons b u => simpa [List.getLastD_cons] using ih (by simp) a

theorem get?_dropLast {α : Type _} :
    ∀ (l : List α) (i : Nat), i + 1 < l.length → l.dropLast.get? i = l.get? i
  | [], i, h => by simp at h
  | [a], i, h => by simp at h
  | a :: b :: u, 0, h => by simp [List.dropLast_cons₂]
  | a :: b :: u, i + 1, h => by
      have := get?_dropLast (b :: u) i (by simpa using h)
      simpa [List.dropLast_cons₂] using this

/-- C3: on a movement tick where `get_next_head_pos` succeeds,
`snake_movement` performs a rigid shift: the body keeps its length, the
segment closest to the head adopts the head's pre-move position, every
further segment adopts the previous position of the segment ahead of it,
the head adopts the computed next position, and the recorded last-vacated
tail position equals the pre-shift position of the last body segment. -/
theorem c3_rigid_shift (s : Snake) (next : Position) (hb : s.body ≠ [])
    (h : get_next_head_pos s.head_pos (adoptedDir s) s.body = some next) :
    (snake_movement s).1.head_pos = next ∧
    (snake_movement s).1.body.length = s.body.length ∧
    (snake_movement s).1.body.get? 0 = some s.head_pos ∧
    (∀ i, i + 1 < s.body.length →
      (snake_movement s).1.body.get? (i + 1) = s.body.get? i) ∧
    (snake_movement s).1.last_tail_pos = s.body.getLast hb ∧
    (snake_movement s).2 = AppState.Running := by
  unfold snake_movement
  rw [h, shiftBody_eq]
  refine ⟨rfl, by simp, ?_, ?_, ?_, rfl⟩
  · rcases hl : s.body with _ | ⟨a, t⟩
    · exact absurd hl hb
    · simp [List.dropLast_cons₂]
  · intro i hi
    have h1 : (s.head_pos :: s.body).dropLast.get? (i + 1)
        = (s.head_pos :: s.body).get? (i + 1) :=
      get?_dropLast (s.head_pos :: s.body) (i + 1) (by simpa using hi)
    simpa using h1
  · simpa using getLastD_of_ne_nil s.body hb s.head_pos

theorem c3_rigid_shift_witness :
    ([{ x := 3, y := 2 }] : List Position) ≠ [] ∧
    (snake_movement initialSnake).1.head_pos = { x := 3, y := 4 } ∧
    (snake_movement initialSnake).1.body.get? 0 = some { x := 3, y := 3 } ∧
    (snake_movement initialSnake).1.last_tail_pos = { x := 3, y := 2 } := by
  have h := c3_rigid_shift initialSnake { x := 3, y := 4 } (by decide) (by decide)
  exact ⟨by decide, h.1, h.2.2.1, h.2.2.2.2.1⟩

/-- Concrete state exercising the collision branch of `snake_movement`:
head at the left wall, committed direction `Up`, pending input `Left`. -/
def c4Snake : Snake :=
  { head_pos := { x := 0, y := 7 }
    direction := Direction.Up
    input_direction := some Direction.Left
    body := [{ x := 0, y := 6 }]
    last_tail_pos := { x := 0, y := 5 } }

/-- C4 counterexample: on a tick where `get_next_head_pos` signals
collision, the game state becomes `Ended` but the committed direction is
NOT left unchanged: the pending input direction was adopted before the
collision check, so the claim that the committed direction is unchanged on
that tick is false. -/
theorem c4_counterexample :
    (snake_movement c4Snake).2 = AppState.Ended ∧
    (snake_movement c4Snake).1.direction ≠ c4Snake.direction := by decide

/-- C4 (amended): on a movement tick where `get_next_head_pos` signals
collision, `snake_movement` sets the game state to `Ended` and leaves the
head position, all body-segment positions, the recorded last-vacated tail
position and the pending input unchanged; the committed direction,
however, has already been overwritten with the adopted direction (the
pending input direction when one exists) before the collision check. -/
theorem c4_ended_no_position_mutation (s : Snake)
    (h : get_next_head_pos s.head_pos (adoptedDir s) s.body = none) :
    (snake_movement s).2 = AppState.Ended ∧
    (snake_movement s).1.head_pos = s.head_pos ∧
    (snake_movement s).1.body = s.body ∧
    (snake_movement s).1.last_tail_pos = s.last_tail_pos ∧
    (snake_movement s).1.input_direction = s.input_direction ∧
    (snake_movement s).1.direction = adoptedDir s := by
  unfold snake_movement
  rw [h]
  exact ⟨rfl, rfl, rfl, rfl, rfl, rfl⟩

theorem c4_ended_no_position_mutation_witness :
    (snake_movement c4Snake).2 = AppState.Ended ∧
    (snake_movement c4Snake).1.head_pos = c4Snake.head_pos ∧
    (snake_movement c4Snake).1.body = c4Snake.body ∧
    (snake_movement c4Snake).1.last_tail_pos = c4Snake.last_tail_pos :=
  have h := c4_ended_no_position_mutation c4Snake (by decide)
  ⟨h.1, h.2.1, h.2.2.1, h.2.2.2.1⟩

end BevySnake

namespace BevySnake

/-- Concrete state whose next head cell is the snake's own current tail
cell: head (3,3) facing Up, body segments at (3,2) and (3,4). -/
def c10Snake : Snake :=
  { head_pos := { x := 3, y := 3 }
    direction := Direction.Up
    input_direction := none
    body := [{ x := 3, y := 2 }, { x := 3, y := 4 }]
    last_tail_pos := { x := 3, y := 1 } }

/-- C10: with at least two body segments, when the displaced head position
equals the current (pre-shift) position of the last body segment,
`get_next_head_pos` signals collision and `snake_movement` ends the game,
even though that cell is absent from the post-shift body cells (the shift
would move the head's old position and all but the last segment position
into the body): the occupancy check runs against pre-shift positions. -/
theorem c10_tail_cell_counts_as_collision (s : Snake) (hb : s.body ≠ [])
    (_hlen : 2 ≤ s.body.length) (hd : snakeDistinct s)
    (heq : displace s.head_pos (adoptedDir s) = s.body.getLast hb) :
    get_next_head_pos s.head_pos (adoptedDir s) s.body = none ∧
    (snake_movement s).2 = AppState.Ended ∧
    s.body.getLast hb ∉ s.head_pos :: s.body.dropLast := by
  have hmem : s.body.getLast hb ∈ s.body := List.getLast_mem hb
  have h1 : get_next_head_pos s.head_pos (adoptedDir s) s.body = none :=
    get_next_head_pos_of_mem _ _ _ (heq ▸ hmem)
  refine ⟨h1, ?_, ?_⟩
  · unfold snake_movement
    rw [h1]
  · unfold snakeDistinct snakePositions at hd
    rw [List.nodup_cons] at hd
    intro hc
    rcases List.mem_cons.mp hc with hc | hc
    · exact hd.1 (hc ▸ hmem)
    · have hsplit := List.dropLast_append_getLast hb
      have hnd : (s.body.dropLast ++ [s.body.getLast hb]).Nodup := by
        rw [hsplit]; exact hd.2
      rw [List.nodup_append] at hnd
      exact hnd.2.2 hc (List.mem_singleton.mpr rfl)

theorem c10_tail_cell_counts_as_collision_witness :
    get_next_head_pos c10Snake.head_pos (adoptedDir c10Snake) c10Snake.body
        = none ∧
    (snake_movement c10Snake).2 = AppState.Ended :=
  have h := c10_tail_cell_counts_as_collision c10Snake (by decide) (by decide)
    (by decide) (by decide)
  ⟨h.1, h.2.1⟩

/-- C5: when the head position equals the food position, the eating check
consumes the food and appends exactly one body segment at the recorded
last-vacated tail position, so the body length grows by exactly 1; when
the positions differ, or no food exists, nothing changes. -/
theorem c5_eating_and_growth (s : Snake) (food : Option Position) :
    (food = some s.head_pos →
      (snake_eating_and_growth s food).1.body = s.body ++ [s.last_tail_pos] ∧
      (snake_eating_and_growth s food).1.body.length = s.body.length + 1 ∧
      (snake_eating_and_growth s food).1.body.getLast? = some s.last_tail_pos ∧
      (snake_eating_and_growth s food).2 = none ∧
      (snake_eating_and_growth s food).1.head_pos = s.head_pos ∧
      (snake_eating_and_growth s food).1.last_tail_pos = s.last_tail_pos) ∧
    (∀ fp, food = some fp → fp ≠ s.head_pos →
      snake_eating_and_growth s food = (s, food)) ∧
    (food = none → snake_eating_and_growth s food = (s, none)) := by
  refine ⟨?_, ?_, ?_⟩
  · rintro rfl
    simp [snake_eating_and_growth]
  · rintro fp rfl hne
    simp [snake_eating_and_growth, Ne.symm hne]
  · rintro rfl
    simp [snake_eating_and_growth]

theorem c5_eating_and_growth_witness :
    (snake_eating_and_growth initialSnake (some { x := 3, y := 3 })).1.body
        = [{ x := 3, y := 2 }, { x := 3, y := 2 }] ∧
    (snake_eating_and_growth initialSnake (some { x := 3, y := 3 })).2 = none ∧
    snake_eating_and_growth initialSnake none = (initialSnake, none) :=
  have h := c5_eating_and_growth initialSnake (some { x := 3, y := 3 })
  have h1 := h.1 rfl
  have h2 := (c5_eating_and_growth initialSnake none).2.2 rfl
  ⟨h1.1, h1.2.2.2.1, h2⟩

/-- Invariant on the pending input: when a pending input direction exists
it is not the opposite of the current committed direction. -/
def headInv (s : Snake) : Prop :=
  match s.input_direction with
  | some i => i ≠ s.direction.opposite
  | none => True

theorem Direction.opposite_ne (d : Direction) : d.opposite ≠ d := by
  cases d <;> decide

theorem snake_movement_direction (s : Snake) :
    (snake_movement s).1.direction = adoptedDir s := by
  unfold snake_movement
  rcases h : get_next_head_pos s.head_pos (adoptedDir s) s.body with _ | q <;>
    rfl

theorem snake_movement_input_direction (s : Snake) :
    (snake_movement s).1.input_direction = s.input_direction := by
  unfold snake_movement
  rcases h : get_next_head_pos s.head_pos (adoptedDir s) s.body with _ | q <;>
    rfl

/-- C6: supplying an input direction equal to the opposite of the current
committed direction changes nothing; the pending-input invariant (a
pending direction is never the opposite of the committed direction) is
preserved by every input sampling and by every movement tick, holds
initially, and under it the direction committed at a movement tick is
never the opposite of the direction committed at the previous tick. -/
theorem c6_reversal_rejected (s : Snake) (left right up down : Bool)
    (hinv : headInv s) :
    apply_input_dir s (some s.direction.opposite) = s ∧
    headInv (snake_head_movement_input left right up down s) ∧
    (snake_movement s).1.direction ≠ s.direction.opposite ∧
    headInv (snake_movement s).1 ∧
    headInv initialSnake := by
  have hadopt : adoptedDir s ≠ s.direction.opposite := by
    unfold adoptedDir
    rcases hin : s.input_direction with _ | i
    · exact (Direction.opposite_ne s.direction).symm
    · unfold headInv at hinv
      rw [hin] at hinv
      exact hinv
  refine ⟨?_, ?_, ?_, ?_, ?_⟩
  · unfold apply_input_dir
    simp
  · unfold snake_head_movement_input apply_input_dir
    rcases sampleDir left right up down with _ | d0
    · exact hinv
    · by_cases hd0 : d0 = s.direction.opposite
      · simp only [hd0, ne_eq, not_true_eq_false, if_false]
        exact hinv
      · simp only [ne_eq, hd0, not_false_eq_true, if_true]
        unfold headInv
        simpa using hd0
  · rw [snake_movement_direction]
    exact hadopt
  · unfold headInv
    rw [snake_movement_input_direction, snake_movement_direction]
    rcases hin : s.input_direction with _ | i
    · trivial
    · have : adoptedDir s = i := by unfold adoptedDir; rw [hin]
      rw [this]
      exact (Direction.opposite_ne i).symm
  · trivial

theorem c6_reversal_rejected_witness :
    apply_input_dir initialSnake (some Direction.Down) = initialSnake ∧
    (snake_movement initialSnake).1.direction ≠ Direction.Down :=
  have h := c6_reversal_rejected initialSnake false false false false trivial
  ⟨h.1, h.2.2.1⟩

end BevySnake

namespace BevySnake

theorem foldl_vacant (segments : List Position) (sampled : Position) (b : Bool) :
    segments.foldl
        (fun vacant segment_pos => if sampled = segment_pos then false else vacant)
        b
      = (b && decide (sampled ∉ segments)) := by
  induction segments generalizing b with
  | nil => simp
  | cons a t ih =>
      rw [List.foldl_cons]
      by_cases hpa : sampled = a
      · rw [if_pos hpa, ih]
        simp [hpa]
      · rw [if_neg hpa, ih]
        simp [hpa]

/-- C7: a food-spawn attempt creates nothing when the sampled cell is
occupied by any snake segment or when a food already exists; every attempt
either leaves the food set unchanged or — only when no food existed and
the sampled cell is unoccupied — creates exactly the one food at the
sampled cell. -/
theorem c7_food_spawner_safety (timerFinished : Bool)
    (segments foods : List Position) (sampled : Position) :
    (sampled ∈ segments →
      food_spawner timerFinished segments foods sampled = foods) ∧
    (foods ≠ [] →
      food_spawner timerFinished segments foods sampled = foods) ∧
    (food_spawner timerFinished segments foods sampled = foods ∨
      (foods = [] ∧ sampled ∉ segments ∧
        food_spawner timerFinished segments foods sampled = [sampled])) := by
  unfold food_spawner
  rw [foldl_vacant]
  by_cases htf : timerFinished
  · by_cases hfe : foods = []
    · by_cases hocc : sampled ∈ segments
      · simp [htf, hfe, hocc]
      · simp [htf, hfe, hocc]
    · have : foods.isEmpty = false := by
        simpa [List.isEmpty_iff] using hfe
      simp [htf, this, hfe]
  · simp [htf]

theorem c7_food_spawner_safety_witness :
    food_spawner true [{ x := 3, y := 3 }] [] { x := 3, y := 3 } = [] ∧
    food_spawner true [{ x := 3, y := 3 }] [{ x := 9, y := 9 }] { x := 5, y := 5 }
      = [{ x := 9, y := 9 }] ∧
    food_spawner true [{ x := 3, y := 3 }] [] { x := 5, y := 5 }
      = [{ x := 5, y := 5 }] :=
  have h1 := (c7_food_spawner_safety true [{ x := 3, y := 3 }] []
    { x := 3, y := 3 }).1 (by decide)
  have h2 := (c7_food_spawner_safety true [{ x := 3, y := 3 }]
    [{ x := 9, y := 9 }] { x := 5, y := 5 }).2.1 (by decide)
  have h3 := (c7_food_spawner_safety true [{ x := 3, y := 3 }] []
    { x := 5, y := 5 }).2.2
  ⟨h1, h2, by
    rcases h3 with h3 | h3
    · exact absurd h3 (by decide)
    · exact h3.2.2⟩

/-- The four held-key states induced by an ordered list of pressed
directional keys (earliest press first, most recent press last). -/
def pressedOf (presses : List Direction) : Bool × Bool × Bool × Bool :=
  (decide (Direction.Left ∈ presses), decide (Direction.Right ∈ presses),
    decide (Direction.Up ∈ presses), decide (Direction.Down ∈ presses))

/-- The sampler of src/main.rs applied to the held-key states of an
ordered press list. -/
def sampleDirOfPresses (presses : List Direction) : Option Direction :=
  sampleDir (pressedOf presses).1 (pressedOf presses).2.1
    (pressedOf presses).2.2.1 (pressedOf presses).2.2.2

/-- Modelled from the spec for comparison (refinement target, not source
code): last-wins selection, i.e. the direction of the most recently
pressed key in the ordered press list. -/
def specLastWins (presses : List Direction) : Option Direction :=
  presses.getLast?

/-- C9 counterexample: with Left pressed first and Right pressed most
recently, the sampler of src/main.rs selects Left while last-wins
selection would give Right: the if/else chain tests keys in the fixed
order Left, Right, Up, Down and ignores press recency. -/
theorem c9_counterexample :
    sampleDirOfPresses [Direction.Left, Direction.Right]
        = some Direction.Left ∧
    specLastWins [Direction.Left, Direction.Right] = some Direction.Right ∧
    sampleDirOfPresses [Direction.Left, Direction.Right]
        ≠ specLastWins [Direction.Left, Direction.Right] := by
  refine ⟨rfl, rfl, ?_⟩
  decide

/-- C9 (amended): when one or more directional keys are held in a frame,
the sampler selects the direction of the first pressed key in the fixed
precedence order Left, Right, Up, Down — independent of press recency —
and selects nothing when no key is held. -/
theorem c9_fixed_precedence (presses : List Direction) :
    sampleDirOfPresses presses =
      [Direction.Left, Direction.Right, Direction.Up, Direction.Down].find?
        (fun d => decide (d ∈ presses)) := by
  unfold sampleDirOfPresses pressedOf sampleDir
  by_cases hl : Direction.Left ∈ presses <;>
    by_cases hr : Direction.Right ∈ presses <;>
      by_cases hu : Direction.Up ∈ presses <;>
        by_cases hd : Direction.Down ∈ presses <;>
          simp [List.find?, hl, hr, hu, hd]

end BevySnake

namespace BevySnake

theorem dropLast_append_getLastD (h : Position) (b : List Position) :
    (h :: b).dropLast ++ [b.getLastD h] = h :: b := by
  cases b with
  | nil => rfl
  | cons a t =>
      rw [getLastD_of_ne_nil (a :: t) (by simp) h, List.dropLast_cons₂,
        List.cons_append, List.dropLast_append_getLast]

theorem snake_movement_some (s : Snake) (next : Position)
    (h : get_next_head_pos s.head_pos (adoptedDir s) s.body = some next) :
    snake_movement s =
      ({ head_pos := next
         direction := adoptedDir s
         input_direction := s.input_direction
         body := (s.head_pos :: s.body).dropLast
         last_tail_pos := s.body.getLastD s.head_pos }, AppState.Running) := by
  unfold snake_movement
  rw [h, shiftBody_eq]

/-- C8: the head position and all body-segment positions are pairwise
distinct in the freshly spawned snake, and one full tick — the movement
shift followed by the eating check that may append a segment at the
just-vacated tail cell — preserves this distinctness (a collision tick
leaves positions untouched, so distinctness likewise survives). -/
theorem c8_distinct_positions :
    snakeDistinct initialSnake ∧
    ∀ (s : Snake) (food : Option Position),
      snakeDistinct s → snakeDistinct (moveAndEat s food).1 := by
  refine ⟨by decide, ?_⟩
  intro s food hd
  rcases hn : get_next_head_pos s.head_pos (adoptedDir s) s.body with _ | next
  · have hsm : snake_movement s
        = ({ s with direction := adoptedDir s }, AppState.Ended) := by
      unfold snake_movement
      rw [hn]
    unfold moveAndEat
    rw [hsm]
    exact hd
  · obtain ⟨hnext, _hbnd, hnotmem⟩ := get_next_head_pos_some_inv _ _ _ _ hn
    have hnm : next ∉ s.body := by rw [hnext]; exact hnotmem
    have hnh : next ≠ s.head_pos := by rw [hnext]; exact displace_ne _ _
    have hA : (next :: s.head_pos :: s.body).Nodup := by
      unfold snakeDistinct snakePositions at hd
      rw [List.nodup_cons]
      refine ⟨?_, hd⟩
      intro hc
      rcases List.mem_cons.mp hc with hc | hc
      · exact hnh hc
      · exact hnm hc
    have hMd : (next :: (s.head_pos :: s.body).dropLast).Nodup :=
      List.Nodup.sublist
        (List.Sublist.cons₂ next (List.dropLast_sublist (s.head_pos :: s.body)))
        hA
    have hMg : (next :: ((s.head_pos :: s.body).dropLast
        ++ [s.body.getLastD s.head_pos])).Nodup := by
      rw [dropLast_append_getLastD]
      exact hA
    unfold moveAndEat
    rw [snake_movement_some s next hn]
    rcases food with _ | fp
    · exact hMd
    · simp only [snake_eating_and_growth]
      by_cases hfp : next = fp
      · rw [if_pos hfp]
        exact hMg
      · rw [if_neg hfp]
        exact hMd

theorem c8_distinct_positions_witness :
    snakeDistinct initialSnake ∧
    snakeDistinct (moveAndEat initialSnake (some { x := 3, y := 4 })).1 :=
  ⟨c8_distinct_positions.1,
    c8_distinct_positions.2 initialSnake (some { x := 3, y := 4 }) (by decide)⟩

end BevySnake
